import Mathlib

/-!
# Verification of the prefect core graph model and unit runner

This file gives a shallow embedding in Lean 4 of the two core source files

  * `src/prefect/core/flow.py`      (the dependency-graph model, class `Flow`)
  * `src/prefect/runners/task_runner.py` (the single-unit state machine, class `TaskRunner`)

and proves the specification claims about them.

Modelling conventions:

  * Python `dict` keyed by task id is modelled as a `List Task` whose ids are
    nodup (the theorems carry the nodup invariant as a hypothesis where needed);
    Python `set` is modelled as a `List` treated up to membership, with set
    insertion adding at the end when absent.
  * Python mutation of `self` is modelled by explicit state passing: a
    mutating method that may raise returns the mutated state *and* an optional
    error, because a raised exception in Python leaves the already-performed
    mutations in place.
  * `get_task` lookups inside adjacency scans are realised by filtering the
    flow's task list by id; under the graph invariant (every edge endpoint is
    the id of a task of the flow, task ids nodup) this coincides with the
    Python code, which looks the unique task object up by id.
-/

namespace Prefect

instance {ε α : Type} [DecidableEq ε] [DecidableEq α] : DecidableEq (Except ε α) :=
  fun x y =>
    match x, y with
    | .ok a, .ok b =>
      if h : a = b then isTrue (by rw [h]) else isFalse (by simp [h])
    | .error a, .error b =>
      if h : a = b then isTrue (by rw [h]) else isFalse (by simp [h])
    | .ok _, .error _ => isFalse (by simp)
    | .error _, .ok _ => isFalse (by simp)

/-- A task of a flow.  The Python `Task` object carries an opaque unique `id`
and a human readable `name`; only those two fields are relevant to the graph
claims.  Structural equality of this record stands in for Python object
identity (ids are process-unique). -/
structure Task where
  id : String
  name : String
deriving DecidableEq, Repr

/-- An edge, `src/prefect/core/edge.py` as used by `flow.py`: an ordered pair
of task ids plus an optional key.  Equality is by the whole triple. -/
structure Edge where
  upstream_task : String
  downstream_task : String
  key : Option String
deriving DecidableEq, Repr

/-- The graph-relevant state of a `Flow`: `tasks` models the dict
`{task.id: task}` (insertion order, unique ids), `edges` models the edge set. -/
structure Flow where
  tasks : List Task
  edges : List Edge
deriving DecidableEq, Repr

/-- Dict insertion `self.tasks[task.id] = task`: replace the entry with the
same id if present, else append. -/
def dictInsert (ts : List Task) (t : Task) : List Task :=
  if ts.any (fun x => x.id == t.id) then
    ts.map (fun x => if x.id == t.id then t else x)
  else
    ts ++ [t]

/-- `Flow.add_task` (flow.py line 81): insert the task keyed by its id.
(The `isinstance(task, Task)` type check is always satisfied here.) -/
def Flow.add_task (f : Flow) (t : Task) : Flow :=
  { f with tasks := dictInsert f.tasks t }

/-- `Flow.edges_to` (flow.py line 236): all edges whose downstream endpoint is
the given task. -/
def Flow.edges_to (f : Flow) (t : Task) : List Edge :=
  f.edges.filter (fun e => e.downstream_task == t.id)

/-- `Flow.edges_from` (flow.py line 249): all edges whose upstream endpoint is
the given task. -/
def Flow.edges_from (f : Flow) (t : Task) : List Edge :=
  f.edges.filter (fun e => e.upstream_task == t.id)

/-- `Flow.upstream_tasks` (flow.py line 156): the tasks of the flow that are
immediately upstream of `t`.  The Python code maps `get_task` over
`edges_to t`; under the graph invariant this is the set of flow tasks `u`
with an edge `u → t`. -/
def Flow.upstream_tasks (f : Flow) (t : Task) : List Task :=
  f.tasks.filter (fun u =>
    f.edges.any (fun e => e.downstream_task == t.id && e.upstream_task == u.id))

/-- `Flow.downstream_tasks` (flow.py line 173): the tasks of the flow that are
immediately downstream of `t`. -/
def Flow.downstream_tasks (f : Flow) (t : Task) : List Task :=
  f.tasks.filter (fun d =>
    f.edges.any (fun e => e.upstream_task == t.id && e.downstream_task == d.id))

/-- `Flow.root_tasks` (flow.py line 264): tasks with no incoming edges. -/
def Flow.root_tasks (f : Flow) : List Task :=
  f.tasks.filter (fun t => (f.edges_to t).isEmpty)

/-- `Flow.terminal_tasks` (flow.py line 271): tasks with no outgoing edges. -/
def Flow.terminal_tasks (f : Flow) : List Task :=
  f.tasks.filter (fun t => (f.edges_from t).isEmpty)

/-- The inner `for upstream_task in self.upstream_tasks(task): if upstream_task
in tasks: break` test of `sorted_tasks` (flow.py lines 219-223): `t` still has
an unsorted upstream task in `remaining`. -/
def hasUnsortedUpstream (edges : List Edge) (remaining : List Task) (t : Task) : Bool :=
  edges.any (fun e =>
    e.downstream_task == t.id && remaining.any (fun u => u.id == e.upstream_task))

/-- One full scan of the remaining task set (`for task in list(tasks)`,
flow.py lines 218-229): iterate over a snapshot; a task with no unsorted
upstream is removed from `remaining` and appended to the sorted accumulator.
The membership test uses the *current* `remaining`, which shrinks during the
scan, exactly as the Python set does. -/
def sortPass (edges : List Edge) : List Task → List Task → List Task → List Task × List Task
  | [], remaining, acc => (remaining, acc)
  | t :: rest, remaining, acc =>
    if hasUnsortedUpstream edges remaining t then
      sortPass edges rest remaining acc
    else
      sortPass edges rest (remaining.erase t) (acc ++ [t])

/-- The outer `while tasks:` loop of `sorted_tasks` (flow.py lines 216-232).
The Python flag `acyclic` is set exactly when the scan removed at least one
task from the set, i.e. exactly when the set shrank; a scan that removes
nothing raises `ValueError('Flows must be acyclic!')`.  The loop runs on
explicit fuel for structural recursion; each productive scan shrinks
`remaining` by at least one, so fuel `remaining.length` is exact: with that
much fuel the fuel-exhausted case (in which `remaining` must already be
empty) is never reached with a nonempty set. -/
def sortLoop (edges : List Edge) : Nat → List Task → List Task → Except String (List Task)
  | 0, remaining, acc =>
    if remaining.isEmpty then .ok acc else .error "Flows must be acyclic!"
  | fuel + 1, remaining, acc =>
    if remaining.isEmpty then .ok acc
    else
      let p := sortPass edges remaining remaining acc
      if p.1.length < remaining.length then
        sortLoop edges fuel p.1 p.2
      else
        .error "Flows must be acyclic!"

/-- Set union used to model `tasks.update(self.downstream_tasks(t))`. -/
def unionTasks (a b : List Task) : List Task :=
  a ++ b.filter (fun t => !a.contains t)

/-- The inner `for t in list(tasks.difference(seen))` body of the root-closure
computation (flow.py lines 205-211): each snapshot element contributes its
downstream tasks to the growing set. -/
def closurePass (f : Flow) (snapshot tasks : List Task) : List Task :=
  snapshot.foldl (fun acc t => unionTasks acc (f.downstream_tasks t)) tasks

/-- The `while seen != tasks` loop of `sorted_tasks` with roots (flow.py lines
205-211), with explicit fuel; one iteration processes the snapshot
`tasks - seen` and marks it seen.  The loop stops as soon as `seen` covers
`tasks` (the Python condition `seen != tasks`, since `seen ⊆ tasks` always).
The fuel supplied by `sorted_tasks` is proved sufficient below. -/
def closureLoop (f : Flow) : Nat → List Task → List Task → List Task
  | 0, tasks, _ => tasks
  | fuel + 1, tasks, seen =>
    let diff := tasks.filter (fun t => !seen.contains t)
    if diff.isEmpty then tasks
    else closureLoop f fuel (closurePass f diff tasks) (seen ++ diff)

/-- `Flow.sorted_tasks` (flow.py lines 190-234): with `roots` given, first
expand the root set to its downstream closure, then repeatedly scan for tasks
all of whose upstream tasks are already sorted; fail with the acyclicity
error when a full scan emits nothing. -/
def Flow.sorted_tasks (f : Flow) (roots : Option (List Task) := none) :
    Except String (List Task) :=
  let initial :=
    match roots with
    | none => f.tasks
    | some rs =>
      let rs' := rs.dedup
      closureLoop f (rs'.length + f.tasks.length + 1) rs' []
  sortLoop f.edges initial.length initial []

/-- The endpoint auto-insertion of `add_edge` (flow.py lines 101-104): either
endpoint absent from the task dict's values is inserted via `add_task`. -/
def addEndpoints (f : Flow) (upstream_task downstream_task : Task) : Flow :=
  let f1 := if f.tasks.contains upstream_task then f else f.add_task upstream_task
  if f1.tasks.contains downstream_task then f1 else f1.add_task downstream_task

/-- The duplicate named-edge error message of `add_edge`
(flow.py lines 112-114). -/
def dupKeyMsg (downstream_id k : String) : String :=
  "An edge to task " ++ downstream_id ++ " with key \x22" ++ k
    ++ "\x22 already exists!"

/-- The tail of `add_edge` (flow.py lines 116-119): add the edge to the edge
set, then run a full topological sort as the cycle check; an acyclicity error
propagates with the edge still in place (there is no rollback in the source). -/
def addAndCheck (f : Flow) (edge : Edge) : Flow × Option String :=
  let f3 := { f with
    edges := if f.edges.contains edge then f.edges else f.edges ++ [edge] }
  match f3.sorted_tasks none with
  | .ok _ => (f3, none)
  | .error m => (f3, some m)

/-- `Flow.add_edge` (flow.py lines 87-119).  Returns the state of the flow
after the call together with the error message raised, if any: a raised
exception in Python leaves the mutations already performed in place.
Order of operations, as in the source: (1) auto-insert absent endpoints,
(2) duplicate named-edge check (raises *before* the edge is added),
(3) add the edge to the edge set, (4) run a full topological sort. -/
def Flow.add_edge (f : Flow) (upstream_task downstream_task : Task)
    (key : Option String := none) : Flow × Option String :=
  let edge : Edge :=
    { upstream_task := upstream_task.id
      downstream_task := downstream_task.id
      key := key }
  let f2 := addEndpoints f upstream_task downstream_task
  match key with
  | some k =>
    if f2.edges.any
        (fun e => e.downstream_task == downstream_task.id && e.key == some k) then
      (f2, some (dupKeyMsg downstream_task.id k))
    else
      addAndCheck f2 edge
  | none => addAndCheck f2 edge

/-- `Flow.sub_flow` (flow.py lines 293-311): a fresh flow holding the tasks of
`sorted_tasks(roots)` (the very task values, inserted by `add_task`) and
exactly those original edges with both endpoint ids among the kept tasks. -/
def Flow.sub_flow (f : Flow) (roots : Option (List Task) := none) :
    Except String Flow :=
  match f.sorted_tasks roots with
  | .error m => .error m
  | .ok l =>
    let tasks' := l.foldl dictInsert []
    let edges' := f.edges.filter (fun e =>
      tasks'.any (fun t => t.id == e.upstream_task) &&
      tasks'.any (fun t => t.id == e.downstream_task))
    .ok { tasks := tasks', edges := edges' }

/-- The one-step edge relation of a flow's edge list on task ids:
`edgeStep edges u d` holds when some edge goes from the task with id `u` to
the task with id `d`. -/
def edgeStep (edges : List Edge) (u d : String) : Prop :=
  ∃ e ∈ edges, e.upstream_task = u ∧ e.downstream_task = d

/-- Acyclicity of an edge list: no task id reaches itself through a nonempty
chain of edges. -/
def Acyclic (edges : List Edge) : Prop :=
  ∀ t : String, ¬ Relation.TransGen (edgeStep edges) t t

/-- The graph invariant maintained by `Flow` construction: task ids are
unique (they key the task dict) and every edge endpoint is the id of a task
of the flow. -/
def Flow.Inv (f : Flow) : Prop :=
  (f.tasks.map Task.id).Nodup ∧
  ∀ e ∈ f.edges, (∃ t ∈ f.tasks, t.id = e.upstream_task) ∧
    (∃ t ∈ f.tasks, t.id = e.downstream_task)

/-- In the sequence `l`, the task with id `u` appears at a strictly earlier
position than the task with id `d`. -/
def appearsBefore (l : List Task) (u d : String) : Prop :=
  ∃ i j, ∃ (hi : i < l.length) (hj : j < l.length),
    i < j ∧ (l.get ⟨i, hi⟩).id = u ∧ (l.get ⟨j, hj⟩).id = d

/-- A sequence is topologically sorted with respect to an edge list: no edge
goes from a later element back to an earlier one, and no element carries a
self-loop. -/
def TopoSorted (edges : List Edge) (l : List Task) : Prop :=
  l.Pairwise (fun x y => ¬ edgeStep edges y.id x.id) ∧
  ∀ x ∈ l, ¬ edgeStep edges x.id x.id

/-- Invariant of the sorting loop: no task already emitted into `acc` still
has an upstream task waiting in `rem`. -/
def NoPendingUpstream (edges : List Edge) (acc rem : List Task) : Prop :=
  ∀ e ∈ edges, (∃ x ∈ acc, x.id = e.downstream_task) →
    ∀ u ∈ rem, u.id ≠ e.upstream_task

/-! ## Unit runner model: `src/prefect/runners/task_runner.py`

`prefect.state.TaskRunState` and `prefect.signals` are part of this
repository but are not under `src/`; they are modelled from the spec below.
The `TaskRunner` methods `run`, `catch_signals`, `check_state`, `run_task`
and `finalize` are translated from the source.  Mutation of the state object
is made explicit state passing; the ambient `prefect.context` is reduced to
the one flag the runner reads, `debug`.  An exception travelling from a
protocol step to `catch_signals` is an explicit `Exc` value. -/

/-- Modelled from the spec: `prefect.state.TaskRunState` is not under `src/`.
Spec §3: a run state is one of `pending, running, succeeded, failed, skipped,
shutdown`; `pending` is initial, `running` the only non-terminal non-initial
state, the other four are terminal. -/
inductive TaskRunState where
  | pending
  | running
  | succeeded
  | failed
  | skipped
  | shutdown
deriving DecidableEq, Repr

namespace TaskRunState

/-- Modelled from the spec: the state is the successful terminal state
(`success_result` is returned "if the task doesn't run because it already
succeeded"). -/
def is_successful : TaskRunState → Bool
  | succeeded => true
  | _ => false

/-- Modelled from the spec: the state is `running`. -/
def is_running : TaskRunState → Bool
  | running => true
  | _ => false

/-- Modelled from the spec (§3): the state is terminal (finished). -/
def is_finished : TaskRunState → Bool
  | succeeded => true
  | failed => true
  | skipped => true
  | shutdown => true
  | _ => false

/-- Modelled from the spec: the state is the initial `pending` state. -/
def is_pending : TaskRunState → Bool
  | pending => true
  | _ => false

/-- Modelled from the spec (§4.4 transition table): `state.start()` moves the
run into `running`. -/
def start (_ : TaskRunState) : TaskRunState := running

/-- Modelled from the spec (§4.4): `state.succeed()` finalizes as `succeeded`. -/
def succeed (_ : TaskRunState) : TaskRunState := succeeded

/-- Modelled from the spec (§4.4): `state.fail()` finalizes as `failed`. -/
def fail (_ : TaskRunState) : TaskRunState := failed

/-- Modelled from the spec (§4.4): `state.skip()` finalizes as `skipped`. -/
def skip (_ : TaskRunState) : TaskRunState := skipped

/-- Modelled from the spec (§4.4): `state.shutdown()` finalizes as `shutdown`. -/
def toShutdown (_ : TaskRunState) : TaskRunState := shutdown

end TaskRunState

/-- Modelled from the spec: `prefect.signals` is not under `src/`.  Spec §4.3:
the closed outcome signal set; `SUCCESS` optionally carries a value, the
others carry a reason (for `FAIL`, the reason holds the captured diagnostic).
All six are subclasses of `PrefectSignal` in the source, which the `Exc` type
below reflects. -/
inductive Signal where
  | SUCCESS (value : Option String)
  | SKIP (reason : String)
  | RETRY (reason : String)
  | SHUTDOWN (reason : String)
  | DONTRUN (reason : String)
  | FAIL (reason : String)
deriving DecidableEq, Repr

/-- An exception as seen by `catch_signals`: either one of the six
`PrefectSignal`s or an unclassified Python exception carrying its message. -/
inductive Exc where
  | sig (s : Signal)
  | other (msg : String)
deriving DecidableEq, Repr

/-- The behaviour of one invocation of the task body `self.task.run(**inputs)`:
it returns a value, raises an outcome signal, or raises an unclassified
error.  (The generator-based progress channel of `run_task` forwards progress
values to an observer and ends in the final result; it is outside the claims
and a plain returned value models the body's result.) -/
inductive BodyResult where
  | value (v : Option String)
  | signal (s : Signal)
  | error (msg : String)
deriving DecidableEq, Repr

/-- Modelled from the spec: `traceback.format_exc()`, the captured diagnostic
for an unclassified error — a non-empty human-readable trace containing the
error message. -/
def format_exc (msg : String) : String :=
  "Traceback (most recent call last): " ++ msg

/-- The final state and result returned by `TaskRunner.run` as
`dict(state=state, result=result)`. -/
structure RunResult where
  state : TaskRunState
  result : Option String
deriving DecidableEq, Repr

/-- `TaskRunner.check_state` (task_runner.py lines 92-134): raise `DONTRUN`
when some upstream state is unfinished, when the trigger predicate rejects,
or when the task's own state is not pending; otherwise start the run. -/
def check_state (state : TaskRunState) (upstream_states : List TaskRunState)
    (trigger : List TaskRunState → Bool) : Except Exc TaskRunState :=
  if ¬ upstream_states.all TaskRunState.is_finished then
    .error (.sig (.DONTRUN "Upstream tasks are not finished."))
  else if ¬ trigger upstream_states then
    .error (.sig (.DONTRUN "Trigger failed"))
  else if state.is_running then
    .error (.sig (.DONTRUN "TaskRun is already running."))
  else if state.is_finished then
    .error (.sig (.DONTRUN "TaskRun is already finished."))
  else if ¬ state.is_pending then
    .error (.sig (.DONTRUN "TaskRun is not ready to run."))
  else
    .ok state.start

/-- `TaskRunner.run_task` (task_runner.py lines 136-174): run the body;
a `PrefectSignal` raised inside it propagates unchanged, any other exception
is coerced — unconditionally — into `FAIL(traceback.format_exc())`. -/
def run_task (body : BodyResult) : Except Exc (Option String) :=
  match body with
  | .value v => .ok v
  | .signal s => .error (.sig s)
  | .error msg => .error (.sig (.FAIL (format_exc msg)))

/-- `TaskRunner.finalize` (task_runner.py lines 176-178): a body that returns
normally succeeds with its returned value as the result. -/
def finalize (state : TaskRunState) (result : Option String) :
    TaskRunState × Option String :=
  (state.succeed, result)

/-- The exception handlers of `TaskRunner.catch_signals` (task_runner.py
lines 63-90), applied to an exception raised inside the `with` block:
each signal maps the current state to its terminal state (`DONTRUN` leaves
it untouched); an unclassified exception re-raises when the `debug` context
flag is set and otherwise fails the state. -/
def catchExc (debug : Bool) (e : Exc) (state : TaskRunState) :
    Except String TaskRunState :=
  match e with
  | .sig (.SUCCESS _) => .ok state.succeed
  | .sig (.SKIP _) => .ok state.skip
  | .sig (.RETRY _) => .ok state.fail
  | .sig (.SHUTDOWN _) => .ok state.toShutdown
  | .sig (.DONTRUN _) => .ok state
  | .sig (.FAIL _) => .ok state.fail
  | .other msg => if debug then .error msg else .ok state.fail

/-- `TaskRunner.run` (task_runner.py lines 24-61): initialize `result` to
`success_result` when the prior state is already successful (else `None`),
then, under `catch_signals`, check the state, run the body, and finalize.
A statement that raises skips the rest of the block, so `result` keeps its
last assigned value; `.error` is an exception propagating to `run`'s caller
(only possible for an unclassified error in debug mode). -/
def run (debug : Bool) (state0 : TaskRunState)
    (upstream_states : List TaskRunState) (trigger : List TaskRunState → Bool)
    (body : BodyResult) (success_result : Option String) :
    Except String RunResult :=
  let state := state0
  let result := if state.is_successful then success_result else none
  match check_state state upstream_states trigger with
  | .error e =>
    match catchExc debug e state with
    | .ok st => .ok ⟨st, result⟩
    | .error m => .error m
  | .ok st1 =>
    match run_task body with
    | .error e =>
      match catchExc debug e st1 with
      | .ok st => .ok ⟨st, result⟩
      | .error m => .error m
    | .ok v =>
      let fin := finalize st1 v
      .ok ⟨fin.1, fin.2⟩

/-! ## Basic graph lemmas -/

lemma contains_true_iff {α : Type} [BEq α] [LawfulBEq α] (l : List α) (a : α) :
    l.contains a = true ↔ a ∈ l := by
  simp

lemma add_task_edges (f : Flow) (t : Task) : (f.add_task t).edges = f.edges := rfl

lemma add_task_tasks (f : Flow) (t : Task) :
    (f.add_task t).tasks = dictInsert f.tasks t := rfl

lemma addEndpoints_edges (f : Flow) (up down : Task) :
    (addEndpoints f up down).edges = f.edges := by
  unfold addEndpoints
  simp only []
  split <;> split <;> rfl

lemma mem_dictInsert_self (ts : List Task) (t : Task) : t ∈ dictInsert ts t := by
  unfold dictInsert
  split
  · next h =>
    obtain ⟨x0, hx0, hid⟩ := List.any_eq_true.1 h
    exact List.mem_map.2 ⟨x0, hx0, by simp [hid]⟩
  · exact List.mem_append_right _ (List.mem_singleton_self t)

lemma mem_dictInsert_of_ne (ts : List Task) (t x : Task) (hx : x ∈ ts)
    (hne : x.id ≠ t.id) : x ∈ dictInsert ts t := by
  unfold dictInsert
  split
  · exact List.mem_map.2 ⟨x, hx, by simp [hne]⟩
  · exact List.mem_append_left _ hx

lemma mem_addEndpoints_down (f : Flow) (up down : Task) :
    down ∈ (addEndpoints f up down).tasks := by
  unfold addEndpoints
  simp only []
  split
  · split
    · next h => exact (contains_true_iff _ _).1 h
    · exact mem_dictInsert_self _ _
  · split
    · next h => exact (contains_true_iff _ _).1 h
    · exact mem_dictInsert_self _ _

lemma mem_addEndpoints_up (f : Flow) (up down : Task) (hne : up.id ≠ down.id) :
    up ∈ (addEndpoints f up down).tasks := by
  unfold addEndpoints
  simp only []
  split
  · next hc =>
    have h1 : up ∈ f.tasks := (contains_true_iff _ _).1 hc
    split
    · exact h1
    · exact mem_dictInsert_of_ne _ _ _ h1 hne
  · have h1 : up ∈ (f.add_task up).tasks := mem_dictInsert_self _ _
    split
    · exact h1
    · exact mem_dictInsert_of_ne _ _ _ h1 hne

lemma sortLoop_error_msg (edges : List Edge) :
    ∀ (fuel : Nat) (rem acc : List Task) (m : String),
      sortLoop edges fuel rem acc = .error m → m = "Flows must be acyclic!" := by
  intro fuel
  induction fuel with
  | zero =>
    intro rem acc m h
    unfold sortLoop at h
    split at h <;> simp_all
  | succ n ih =>
    intro rem acc m h
    unfold sortLoop at h
    simp only [] at h
    split at h
    · simp_all
    · split at h
      · exact ih _ _ _ h
      · simp_all

lemma id_inj (f : Flow) (hinv : f.Inv) {x y : Task} (hx : x ∈ f.tasks)
    (hy : y ∈ f.tasks) (h : x.id = y.id) : x = y :=
  List.inj_on_of_nodup_map hinv.1 hx hy h

/-! ## Lemmas about the sorting pass and loop -/

lemma sortPass_nil (edges : List Edge) (r a : List Task) :
    sortPass edges [] r a = (r, a) := rfl

lemma sortPass_cons (edges : List Edge) (t : Task) (rest r a : List Task) :
    sortPass edges (t :: rest) r a =
      if hasUnsortedUpstream edges r t then sortPass edges rest r a
      else sortPass edges rest (r.erase t) (a ++ [t]) := rfl

lemma sortPass_sublist (edges : List Edge) :
    ∀ (s r a : List Task), List.Sublist (sortPass edges s r a).1 r := by
  intro s
  induction s with
  | nil => intro r a; exact List.Sublist.refl r
  | cons t rest ih =>
    intro r a
    rw [sortPass_cons]
    split
    · exact ih r a
    · exact (ih _ _).trans (List.erase_sublist t r)

lemma sortPass_perm (edges : List Edge) :
    ∀ (s r a : List Task), s.Nodup → (∀ x ∈ s, x ∈ r) →
      ∃ m, (sortPass edges s r a).2 = a ++ m ∧
        List.Perm r ((sortPass edges s r a).1 ++ m) := by
  intro s
  induction s with
  | nil =>
    intro r a _ _
    exact ⟨[], by simp [sortPass_nil], by simp [sortPass_nil]⟩
  | cons t rest ih =>
    intro r a hnd hsub
    have ht : t ∈ r := hsub t (List.mem_cons_self t rest)
    rw [sortPass_cons]
    split
    · exact ih r a hnd.of_cons (fun x hx => hsub x (List.mem_cons_of_mem t hx))
    · have hsub' : ∀ x ∈ rest, x ∈ r.erase t := by
        intro x hx
        have hne : x ≠ t := by
          intro hxe
          exact (List.nodup_cons.1 hnd).1 (hxe ▸ hx)
        exact (List.mem_erase_of_ne hne).2 (hsub x (List.mem_cons_of_mem t hx))
      obtain ⟨m, hm1, hm2⟩ := ih (r.erase t) (a ++ [t]) hnd.of_cons hsub'
      refine ⟨t :: m, by simpa [List.append_assoc] using hm1, ?_⟩
      exact ((List.perm_cons_erase ht).trans (hm2.cons t)).trans
        List.perm_middle.symm

lemma sortPass_stuck (edges : List Edge) :
    ∀ (s r a : List Task), (∀ x ∈ s, x ∈ r) →
      ¬ (sortPass edges s r a).1.length < r.length →
      (sortPass edges s r a).1 = r ∧ (sortPass edges s r a).2 = a ∧
        ∀ t ∈ s, hasUnsortedUpstream edges r t = true := by
  intro s
  induction s with
  | nil => intro r a _ _; exact ⟨rfl, rfl, by simp⟩
  | cons t rest ih =>
    intro r a hsub hlen
    have ht : t ∈ r := hsub t (List.mem_cons_self t rest)
    by_cases hch : hasUnsortedUpstream edges r t = true
    · rw [sortPass_cons, if_pos hch] at hlen ⊢
      obtain ⟨h1, h2, h3⟩ :=
        ih r a (fun x hx => hsub x (List.mem_cons_of_mem t hx)) hlen
      refine ⟨h1, h2, fun x hx => ?_⟩
      rcases List.mem_cons.1 hx with h | h
      · exact h ▸ hch
      · exact h3 x h
    · exfalso
      apply hlen
      rw [sortPass_cons, if_neg hch]
      have h1 := (sortPass_sublist edges rest (r.erase t) (a ++ [t])).length_le
      have h2 : (r.erase t).length = r.length - 1 := List.length_erase_of_mem ht
      have h3 : 0 < r.length := List.length_pos_of_mem ht
      omega

lemma sortPass_progress (edges : List Edge) :
    ∀ (s r a : List Task) (t0 : Task), t0 ∈ s → (∀ x ∈ s, x ∈ r) →
      hasUnsortedUpstream edges r t0 = false →
      (sortPass edges s r a).1.length < r.length := by
  intro s
  induction s with
  | nil => intro r a t0 h; cases h
  | cons t rest ih =>
    intro r a t0 ht0 hsub hch0
    have ht : t ∈ r := hsub t (List.mem_cons_self t rest)
    by_cases hch : hasUnsortedUpstream edges r t = true
    · have hne : t0 ≠ t := by
        intro h
        rw [h, hch] at hch0
        cases hch0
      have ht0' : t0 ∈ rest := (List.mem_cons.1 ht0).resolve_left hne
      rw [sortPass_cons, if_pos hch]
      exact ih r a t0 ht0' (fun x hx => hsub x (List.mem_cons_of_mem t hx)) hch0
    · rw [sortPass_cons, if_neg hch]
      have h1 := (sortPass_sublist edges rest (r.erase t) (a ++ [t])).length_le
      have h2 : (r.erase t).length = r.length - 1 := List.length_erase_of_mem ht
      have h3 : 0 < r.length := List.length_pos_of_mem ht
      omega

lemma not_hasUnsortedUpstream_iff (edges : List Edge) (r : List Task) (t : Task) :
    hasUnsortedUpstream edges r t = false ↔
      ∀ e ∈ edges, e.downstream_task = t.id → ∀ u ∈ r, u.id ≠ e.upstream_task := by
  unfold hasUnsortedUpstream
  simp [not_and, not_exists]

lemma sort_step_inv (edges : List Edge) (r a : List Task) (t : Task) (ht : t ∈ r)
    (hch : hasUnsortedUpstream edges r t = false)
    (h1 : NoPendingUpstream edges a r) (h2 : TopoSorted edges a) :
    NoPendingUpstream edges (a ++ [t]) (r.erase t) ∧ TopoSorted edges (a ++ [t]) := by
  have hfree := (not_hasUnsortedUpstream_iff edges r t).1 hch
  refine ⟨?_, ?_, ?_⟩
  · intro e he hex u hu
    have hur : u ∈ r := List.erase_subset _ _ hu
    rcases hex with ⟨x, hx, hxid⟩
    rcases List.mem_append.1 hx with hxa | hxt
    · exact h1 e he ⟨x, hxa, hxid⟩ u hur
    · have hxt' : x = t := List.mem_singleton.1 hxt
      subst hxt'
      exact hfree e he hxid.symm u hur
  · refine List.pairwise_append.2 ⟨h2.1, List.pairwise_singleton _ _, ?_⟩
    intro x hx y hy
    have hyt : y = t := List.mem_singleton.1 hy
    rintro ⟨e, he, hup, hdn⟩
    refine h1 e he ⟨x, hx, hdn.symm⟩ t ht ?_
    rw [hyt] at hup
    exact hup.symm
  · intro x hx
    rcases List.mem_append.1 hx with hxa | hxt
    · exact h2.2 x hxa
    · have hxt' : x = t := List.mem_singleton.1 hxt
      rintro ⟨e, he, hup, hdn⟩
      rw [hxt'] at hup hdn
      exact hfree e he hdn t ht hup.symm

lemma sortPass_inv (edges : List Edge) :
    ∀ (s r a : List Task), s.Nodup → (∀ x ∈ s, x ∈ r) →
      NoPendingUpstream edges a r → TopoSorted edges a →
      NoPendingUpstream edges (sortPass edges s r a).2 (sortPass edges s r a).1 ∧
        TopoSorted edges (sortPass edges s r a).2 := by
  intro s
  induction s with
  | nil => intro r a _ _ h1 h2; exact ⟨h1, h2⟩
  | cons t rest ih =>
    intro r a hnd hsub h1 h2
    have ht : t ∈ r := hsub t (List.mem_cons_self t rest)
    by_cases hch : hasUnsortedUpstream edges r t = true
    · rw [sortPass_cons, if_pos hch]
      exact ih r a hnd.of_cons (fun x hx => hsub x (List.mem_cons_of_mem t hx)) h1 h2
    · have hchf : hasUnsortedUpstream edges r t = false := by
        cases hval : hasUnsortedUpstream edges r t
        · rfl
        · exact absurd hval hch
      rw [sortPass_cons, if_neg hch]
      obtain ⟨hA, hB⟩ := sort_step_inv edges r a t ht hchf h1 h2
      have hsub' : ∀ x ∈ rest, x ∈ r.erase t := by
        intro x hx
        have hne : x ≠ t := by
          intro hxe
          exact (List.nodup_cons.1 hnd).1 (hxe ▸ hx)
        exact (List.mem_erase_of_ne hne).2 (hsub x (List.mem_cons_of_mem t hx))
      exact ih (r.erase t) (a ++ [t]) hnd.of_cons hsub' hA hB

lemma sortLoop_ok_spec (edges : List Edge) :
    ∀ (fuel : Nat) (rem acc l : List Task), rem.Nodup →
      NoPendingUpstream edges acc rem → TopoSorted edges acc →
      sortLoop edges fuel rem acc = .ok l →
      List.Perm (acc ++ rem) l ∧ TopoSorted edges l := by
  intro fuel
  induction fuel with
  | zero =>
    intro rem acc l hnd h1 h2 h
    unfold sortLoop at h
    split at h
    · next hemp =>
      have hrem : rem = [] := List.isEmpty_iff.1 hemp
      subst hrem
      cases h
      exact ⟨by simp, h2⟩
    · cases h
  | succ n ih =>
    intro rem acc l hnd h1 h2 h
    unfold sortLoop at h
    simp only [] at h
    split at h
    · next hemp =>
      have hrem : rem = [] := List.isEmpty_iff.1 hemp
      subst hrem
      cases h
      exact ⟨by simp, h2⟩
    · split at h
      · have hsub : ∀ x ∈ rem, x ∈ rem := fun x hx => hx
        obtain ⟨hA, hB⟩ := sortPass_inv edges rem rem acc hnd hsub h1 h2
        obtain ⟨m, hm1, hm2⟩ := sortPass_perm edges rem rem acc hnd hsub
        have hnd' : (sortPass edges rem rem acc).1.Nodup :=
          (sortPass_sublist edges rem rem acc).nodup hnd
        obtain ⟨hp, ht⟩ := ih _ _ l hnd' hA hB h
        refine ⟨?_, ht⟩
        have s1 : List.Perm (acc ++ rem)
            (acc ++ ((sortPass edges rem rem acc).1 ++ m)) :=
          hm2.append_left acc
        have s2 : List.Perm (acc ++ ((sortPass edges rem rem acc).1 ++ m))
            (acc ++ (m ++ (sortPass edges rem rem acc).1)) :=
          List.Perm.append_left acc List.perm_append_comm
        have s3 : acc ++ (m ++ (sortPass edges rem rem acc).1)
            = (sortPass edges rem rem acc).2 ++ (sortPass edges rem rem acc).1 := by
          rw [← List.append_assoc, ← hm1]
        exact ((s1.trans s2).trans (s3 ▸ List.Perm.refl _)).trans hp
      · cases h

lemma exists_eligible_of_acyclic (edges : List Edge) (r : List Task)
    (hr : r ≠ []) (hacyc : Acyclic edges) :
    ∃ t ∈ r, hasUnsortedUpstream edges r t = false := by
  by_contra hcon
  push_neg at hcon
  have H : ∀ t ∈ r, ∃ u ∈ r, edgeStep edges u.id t.id := by
    intro t ht
    have htrue : hasUnsortedUpstream edges r t = true := by
      cases hval : hasUnsortedUpstream edges r t
      · exact absurd hval (hcon t ht)
      · rfl
    unfold hasUnsortedUpstream at htrue
    simp only [List.any_eq_true, Bool.and_eq_true, beq_iff_eq] at htrue
    obtain ⟨e, he, hdn, u, hu, huid⟩ := htrue
    exact ⟨u, hu, e, he, huid.symm, hdn⟩
  obtain ⟨t0, ht0⟩ : ∃ t, t ∈ r := by
    cases r with
    | nil => exact absurd rfl hr
    | cons x xs => exact ⟨x, List.mem_cons_self x xs⟩
  let f : {x // x ∈ r} → {x // x ∈ r} := fun x =>
    ⟨(H x.1 x.2).choose, (H x.1 x.2).choose_spec.1⟩
  have hf : ∀ x : {x // x ∈ r}, edgeStep edges (f x).1.id x.1.id :=
    fun x => (H x.1 x.2).choose_spec.2
  let seq : Nat → {x // x ∈ r} := fun n => f^[n] ⟨t0, ht0⟩
  have hstep : ∀ n, edgeStep edges (seq (n + 1)).1.id (seq n).1.id := by
    intro n
    have hit : seq (n + 1) = f (seq n) := Function.iterate_succ_apply' f n _
    rw [hit]
    exact hf (seq n)
  have hchain : ∀ i k,
      Relation.TransGen (edgeStep edges) (seq (i + 1 + k)).1.id (seq i).1.id := by
    intro i k
    induction k with
    | zero => exact Relation.TransGen.single (hstep i)
    | succ k ihk => exact Relation.TransGen.head (hstep (i + 1 + k)) ihk
  let g : Nat → Fin r.length := fun n =>
    ⟨r.indexOf (seq n).1, List.indexOf_lt_length.2 (seq n).2⟩
  obtain ⟨a, b, hab, hg⟩ := Finite.exists_ne_map_eq_of_infinite g
  have heq : (seq a).1 = (seq b).1 := by
    have h1 : r.indexOf (seq a).1 = r.indexOf (seq b).1 := congrArg Fin.val hg
    exact (List.indexOf_inj (seq a).2 (seq b).2).1 h1
  rcases Nat.lt_or_ge a b with hlt | hge
  · obtain ⟨k, hk⟩ : ∃ k, b = a + 1 + k := ⟨b - (a + 1), by omega⟩
    have hc := hchain a k
    rw [← hk] at hc
    rw [heq] at hc
    exact hacyc _ hc
  · have hlt' : b < a := by omega
    obtain ⟨k, hk⟩ : ∃ k, a = b + 1 + k := ⟨a - (b + 1), by omega⟩
    have hc := hchain b k
    rw [← hk] at hc
    rw [← heq] at hc
    exact hacyc _ hc

lemma sortLoop_ok_of_acyclic (edges : List Edge) (hacyc : Acyclic edges) :
    ∀ (fuel : Nat) (rem acc : List Task), rem.Nodup → rem.length ≤ fuel →
      ∃ l, sortLoop edges fuel rem acc = .ok l := by
  intro fuel
  induction fuel with
  | zero =>
    intro rem acc hnd hlen
    have hrem : rem = [] := List.eq_nil_of_length_eq_zero (by omega)
    subst hrem
    exact ⟨acc, rfl⟩
  | succ n ih =>
    intro rem acc hnd hlen
    by_cases hemp : rem = []
    · subst hemp
      exact ⟨acc, rfl⟩
    · obtain ⟨t0, ht0, hch⟩ := exists_eligible_of_acyclic edges rem hemp hacyc
      have hlt := sortPass_progress edges rem rem acc t0 ht0 (fun x hx => hx) hch
      have hnd' : (sortPass edges rem rem acc).1.Nodup :=
        (sortPass_sublist edges rem rem acc).nodup hnd
      obtain ⟨l, hl⟩ :=
        ih (sortPass edges rem rem acc).1 (sortPass edges rem rem acc).2 hnd' (by omega)
      refine ⟨l, ?_⟩
      have hempb : rem.isEmpty = false := by
        cases rem with
        | nil => exact absurd rfl hemp
        | cons _ _ => rfl
      unfold sortLoop
      simp only [hempb, Bool.false_eq_true, if_false]
      rw [if_pos hlt]
      exact hl

lemma appearsBefore_of_topoSorted (edges : List Edge) (l : List Task) (u d : String)
    (hts : TopoSorted edges l) (hstep : edgeStep edges u d)
    (hu : ∃ x ∈ l, x.id = u) (hd : ∃ x ∈ l, x.id = d) :
    appearsBefore l u d := by
  obtain ⟨xu, hxu, hxuid⟩ := hu
  obtain ⟨xd, hxd, hxdid⟩ := hd
  obtain ⟨i, hi⟩ := List.mem_iff_get.1 hxu
  obtain ⟨j, hj⟩ := List.mem_iff_get.1 hxd
  rcases Nat.lt_trichotomy i.1 j.1 with hlt | heq | hgt
  · exact ⟨i.1, j.1, i.2, j.2, hlt,
      show (l.get i).id = u by rw [hi]; exact hxuid,
      show (l.get j).id = d by rw [hj]; exact hxdid⟩
  · exfalso
    have hij : i = j := Fin.ext heq
    have hxud : xu = xd := by rw [← hi, ← hj, hij]
    apply hts.2 xu hxu
    have h1 : xu.id = u := hxuid
    have h2 : xu.id = d := hxud ▸ hxdid
    rw [← h1, ← h2] at hstep
    exact hstep
  · exfalso
    have hp := List.pairwise_iff_get.1 hts.1 j i (by exact hgt)
    apply hp
    rw [hi, hj, hxuid, hxdid]
    exact hstep

lemma acyclic_of_topoSorted (f : Flow) (hinv : f.Inv) (l : List Task)
    (hperm : List.Perm l f.tasks) (hts : TopoSorted f.edges l) :
    Acyclic f.edges := by
  have hnla : (l.map Task.id).Nodup := (hperm.map Task.id).nodup_iff.2 hinv.1
  have hstep_pos : ∀ a b, edgeStep f.edges a b →
      (l.map Task.id).indexOf a < (l.map Task.id).indexOf b := by
    rintro a b ⟨e, he, hup, hdn⟩
    obtain ⟨xu, hxu, hxuid⟩ := (hinv.2 e he).1
    obtain ⟨xd, hxd, hxdid⟩ := (hinv.2 e he).2
    have hxu' : xu ∈ l := hperm.mem_iff.2 hxu
    have hxd' : xd ∈ l := hperm.mem_iff.2 hxd
    have ha : a ∈ l.map Task.id := List.mem_map.2 ⟨xu, hxu', by rw [hxuid, hup]⟩
    have hb : b ∈ l.map Task.id := List.mem_map.2 ⟨xd, hxd', by rw [hxdid, hdn]⟩
    have hia := List.indexOf_lt_length.2 ha
    have hib := List.indexOf_lt_length.2 hb
    rcases Nat.lt_trichotomy ((l.map Task.id).indexOf a) ((l.map Task.id).indexOf b)
      with hlt | heq | hgt
    · exact hlt
    · exfalso
      have hab : a = b := by
        have h1 : (l.map Task.id).get ⟨_, hia⟩ = a := List.indexOf_get hia
        have h2 : (l.map Task.id).get ⟨_, hib⟩ = b := List.indexOf_get hib
        rw [← h1, ← h2]
        congr 1
        exact Fin.ext heq
      obtain ⟨x, hx, hxid⟩ := List.mem_map.1 ha
      apply hts.2 x hx
      refine ⟨e, he, ?_, ?_⟩
      · rw [hxid]; exact hup
      · rw [hxid, hab]; exact hdn
    · exfalso
      have hlen : (l.map Task.id).length = l.length := List.length_map l Task.id
      have hp := List.pairwise_iff_get.1 hts.1 ⟨(l.map Task.id).indexOf b, by omega⟩
        ⟨(l.map Task.id).indexOf a, by omega⟩ (by exact hgt)
      apply hp
      refine ⟨e, he, ?_, ?_⟩
      · have := List.indexOf_get hia
        rw [List.get_map] at this
        rw [this]; exact hup
      · have := List.indexOf_get hib
        rw [List.get_map] at this
        rw [this]; exact hdn
  intro t htg
  have hmono : ∀ a b, Relation.TransGen (edgeStep f.edges) a b →
      (l.map Task.id).indexOf a < (l.map Task.id).indexOf b := by
    intro a b h
    induction h with
    | single h1 => exact hstep_pos _ _ h1
    | tail _ h1 ih1 => exact ih1.trans (hstep_pos _ _ h1)
  exact absurd (hmono t t htg) (by omega)

lemma acyclic_nil : Acyclic [] := by
  have h : ∀ a b : String, Relation.TransGen (edgeStep []) a b → False := by
    intro a b h
    induction h with
    | single h1 => obtain ⟨e, he, -⟩ := h1; cases he
    | tail _ h1 _ => obtain ⟨e, he, -⟩ := h1; cases he
  intro t ht
  exact h t t ht

lemma acyclic_single (u d : String) (hne : u ≠ d) :
    Acyclic [{ upstream_task := u, downstream_task := d, key := none }] := by
  have hstep : ∀ a b,
      edgeStep [{ upstream_task := u, downstream_task := d, key := none }] a b →
        a = u ∧ b = d := by
    rintro a b ⟨e, he, hup, hdn⟩
    have he' : e = { upstream_task := u, downstream_task := d, key := none } :=
      List.mem_singleton.1 he
    subst he'
    exact ⟨hup.symm, hdn.symm⟩
  have htg : ∀ a b,
      Relation.TransGen
        (edgeStep [{ upstream_task := u, downstream_task := d, key := none }]) a b →
        a = u ∧ b = d := by
    intro a b h
    induction h with
    | single h1 => exact hstep _ _ h1
    | tail _ h2 ih =>
      obtain ⟨h3, h4⟩ := hstep _ _ h2
      exact absurd (ih.2.symm.trans h3) (Ne.symm hne)
  intro t ht
  obtain ⟨h1, h2⟩ := htg t t ht
  exact hne (h1.symm.trans h2)

/-! ## Claim theorems: graph -/

/-- C1: for every acyclic graph satisfying the graph invariant,
`sorted_tasks` with no roots returns a permutation of all tasks in which,
for every edge `(u, d)`, `u` appears before `d`; and whenever the graph is
not acyclic (so that some scan finds no task whose upstream tasks are all
emitted), it fails with the acyclicity error. -/
theorem c1_topological_order (f : Flow) (hinv : f.Inv) :
    (Acyclic f.edges →
      ∃ l, f.sorted_tasks none = .ok l ∧ List.Perm l f.tasks ∧
        ∀ e ∈ f.edges, appearsBefore l e.upstream_task e.downstream_task) ∧
    (¬ Acyclic f.edges →
      f.sorted_tasks none = .error "Flows must be acyclic!") := by
  have hnd : f.tasks.Nodup := hinv.1.of_map
  have hdef : f.sorted_tasks none = sortLoop f.edges f.tasks.length f.tasks [] := rfl
  have hnp : NoPendingUpstream f.edges [] f.tasks := by
    intro e he hex
    rcases hex with ⟨x, hx, -⟩
    cases hx
  have hts0 : TopoSorted f.edges [] := ⟨List.Pairwise.nil, by intro x hx; cases hx⟩
  constructor
  · intro hacyc
    obtain ⟨l, hl⟩ :=
      sortLoop_ok_of_acyclic f.edges hacyc f.tasks.length f.tasks [] hnd le_rfl
    obtain ⟨hperm, htopo⟩ :=
      sortLoop_ok_spec f.edges f.tasks.length f.tasks [] l hnd hnp hts0 hl
    have hperm' : List.Perm l f.tasks := by
      have h0 : List.Perm f.tasks l := by simpa using hperm
      exact h0.symm
    refine ⟨l, by rw [hdef]; exact hl, hperm', ?_⟩
    intro e he
    refine appearsBefore_of_topoSorted f.edges l _ _ htopo ⟨e, he, rfl, rfl⟩ ?_ ?_
    · obtain ⟨xu, hxu, hxuid⟩ := (hinv.2 e he).1
      exact ⟨xu, hperm'.mem_iff.2 hxu, hxuid⟩
    · obtain ⟨xd, hxd, hxdid⟩ := (hinv.2 e he).2
      exact ⟨xd, hperm'.mem_iff.2 hxd, hxdid⟩
  · intro hncyc
    rw [hdef]
    cases hres : sortLoop f.edges f.tasks.length f.tasks [] with
    | ok l =>
      exfalso
      obtain ⟨hperm, htopo⟩ :=
        sortLoop_ok_spec f.edges f.tasks.length f.tasks [] l hnd hnp hts0 hres
      have hperm' : List.Perm l f.tasks := by
        have h0 : List.Perm f.tasks l := by simpa using hperm
        exact h0.symm
      exact hncyc (acyclic_of_topoSorted f hinv l hperm' htopo)
    | error m =>
      rw [sortLoop_error_msg f.edges f.tasks.length f.tasks [] m hres]

/-- C1 witness: on the concrete acyclic graph with tasks a, b and the single
edge a → b, the topological sort succeeds with a permutation respecting the
edge. -/
theorem c1_topological_order_witness :
    ∃ l,
      Flow.sorted_tasks
          { tasks := [{ id := "a", name := "A" }, { id := "b", name := "B" }],
            edges := [{ upstream_task := "a", downstream_task := "b", key := none }] }
          none = .ok l ∧
      List.Perm l [{ id := "a", name := "A" }, { id := "b", name := "B" }] ∧
      ∀ e ∈ ([{ upstream_task := "a", downstream_task := "b", key := none }] :
          List Edge),
        appearsBefore l e.upstream_task e.downstream_task :=
  (c1_topological_order
      { tasks := [{ id := "a", name := "A" }, { id := "b", name := "B" }],
        edges := [{ upstream_task := "a", downstream_task := "b", key := none }] }
      (by unfold Flow.Inv; decide)).1
    (acyclic_single "a" "b" (by decide))

lemma sorted_tasks_error_msg (g : Flow) (m : String)
    (h : g.sorted_tasks none = .error m) : m = "Flows must be acyclic!" :=
  sortLoop_error_msg g.edges g.tasks.length g.tasks [] m h

lemma addAndCheck_fst (f : Flow) (edge : Edge) :
    (addAndCheck f edge).1 =
      { f with edges :=
        if f.edges.contains edge then f.edges else f.edges ++ [edge] } := by
  unfold addAndCheck
  simp only []
  split <;> rfl

lemma mem_addAndCheck_edges (f : Flow) (edge : Edge) :
    edge ∈ (addAndCheck f edge).1.edges := by
  rw [addAndCheck_fst]
  simp only []
  split
  · next h => exact (contains_true_iff _ _).1 h
  · exact List.mem_append_right _ (List.mem_singleton_self _)

lemma addAndCheck_tasks (f : Flow) (edge : Edge) :
    (addAndCheck f edge).1.tasks = f.tasks := by
  rw [addAndCheck_fst]

lemma addAndCheck_cases (f : Flow) (edge : Edge) :
    (addAndCheck f edge).2 = none ∨
    ((addAndCheck f edge).2 = some "Flows must be acyclic!" ∧
      (addAndCheck f edge).1.sorted_tasks none =
        .error "Flows must be acyclic!") := by
  unfold addAndCheck
  simp only []
  split
  · left; rfl
  · next m heq =>
    right
    have hm := sorted_tasks_error_msg _ _ heq
    subst hm
    exact ⟨rfl, heq⟩

lemma add_edge_dup (f : Flow) (up down : Task) (k : String)
    (hdup : ∃ e ∈ f.edges, e.downstream_task = down.id ∧ e.key = some k) :
    f.add_edge up down (some k) =
      (addEndpoints f up down, some (dupKeyMsg down.id k)) := by
  unfold Flow.add_edge
  simp only []
  have hany : ((addEndpoints f up down).edges.any
      (fun e => e.downstream_task == down.id && e.key == some k)) = true := by
    rw [addEndpoints_edges]
    obtain ⟨e0, he0, h1, h2⟩ := hdup
    exact List.any_eq_true.2 ⟨e0, he0, by simp [h1, h2]⟩
  rw [if_pos hany]

lemma add_edge_cycle_shape (f : Flow) (up down : Task) (key : Option String)
    (f' : Flow) (m : String)
    (hnodup : ∀ k, key = some k →
      ¬ ∃ e ∈ f.edges, e.downstream_task = down.id ∧ e.key = some k)
    (h : f.add_edge up down key = (f', some m)) :
    f' = (addAndCheck (addEndpoints f up down)
        { upstream_task := up.id, downstream_task := down.id, key := key }).1 ∧
    m = "Flows must be acyclic!" ∧
    f'.sorted_tasks none = .error "Flows must be acyclic!" := by
  have hred : f.add_edge up down key
      = addAndCheck (addEndpoints f up down)
        { upstream_task := up.id, downstream_task := down.id, key := key } := by
    unfold Flow.add_edge
    cases key with
    | none => rfl
    | some k =>
      simp only []
      have hany : ((addEndpoints f up down).edges.any
          (fun e => e.downstream_task == down.id && e.key == some k)) = false := by
        rw [addEndpoints_edges]
        rw [List.any_eq_false]
        intro e he hp
        simp only [Bool.and_eq_true, beq_iff_eq] at hp
        exact hnodup k rfl ⟨e, he, hp.1, hp.2⟩
      rw [if_neg (by rw [hany]; exact Bool.false_ne_true)]
  rw [hred] at h
  have h1 := congrArg Prod.fst h
  have h2 := congrArg Prod.snd h
  simp only [] at h1 h2
  rcases addAndCheck_cases (addEndpoints f up down)
      { upstream_task := up.id, downstream_task := down.id, key := key } with
    hc | ⟨hc1, hc2⟩
  · rw [hc] at h2; cases h2
  · rw [hc1] at h2
    have hm : m = "Flows must be acyclic!" := by
      cases h2; rfl
    subst hm
    exact ⟨h1.symm, rfl, h1 ▸ hc2⟩

/-- C2 counterexample: on an otherwise-empty graph, `add_edge(X, Y)` succeeds
and `add_edge(Y, X)` fails with the cycle error, but contrary to the claim it
does *not* leave the edge set unchanged — the cyclic edge remains — and
`topological_order` afterwards fails instead of succeeding. -/
theorem c2_counterexample :
    Flow.add_edge { tasks := [], edges := [] }
        { id := "x", name := "X" } { id := "y", name := "Y" } none =
      ({ tasks := [{ id := "x", name := "X" }, { id := "y", name := "Y" }],
         edges := [{ upstream_task := "x", downstream_task := "y", key := none }] },
        none) ∧
    Flow.add_edge
        { tasks := [{ id := "x", name := "X" }, { id := "y", name := "Y" }],
          edges := [{ upstream_task := "x", downstream_task := "y", key := none }] }
        { id := "y", name := "Y" } { id := "x", name := "X" } none =
      ({ tasks := [{ id := "x", name := "X" }, { id := "y", name := "Y" }],
         edges := [{ upstream_task := "x", downstream_task := "y", key := none },
                   { upstream_task := "y", downstream_task := "x", key := none }] },
        some "Flows must be acyclic!") ∧
    ([{ upstream_task := "x", downstream_task := "y", key := none },
      { upstream_task := "y", downstream_task := "x", key := none }] :
        List Edge) ≠
      [{ upstream_task := "x", downstream_task := "y", key := none }] ∧
    Flow.sorted_tasks
        { tasks := [{ id := "x", name := "X" }, { id := "y", name := "Y" }],
          edges := [{ upstream_task := "x", downstream_task := "y", key := none },
                    { upstream_task := "y", downstream_task := "x", key := none }] }
        none = .error "Flows must be acyclic!" := by
  decide

/-- C2 amended: a call to `add_edge` whose insertion would create a cycle
(no duplicate named edge pre-exists and the call fails) fails with the cycle
error, but the graph is *not* rolled back: the offending edge remains in the
edge set, the auto-inserted endpoint tasks remain in the task set, and a
subsequent `topological_order` on the resulting graph fails with the
acyclicity error. -/
theorem c2_add_edge_cycle_no_rollback (f : Flow) (up down : Task)
    (key : Option String) (f' : Flow) (m : String)
    (hnodup : ∀ k, key = some k →
      ¬ ∃ e ∈ f.edges, e.downstream_task = down.id ∧ e.key = some k)
    (hne : up.id ≠ down.id)
    (h : f.add_edge up down key = (f', some m)) :
    m = "Flows must be acyclic!" ∧
    ({ upstream_task := up.id, downstream_task := down.id, key := key } : Edge)
      ∈ f'.edges ∧
    f'.sorted_tasks none = .error "Flows must be acyclic!" ∧
    up ∈ f'.tasks ∧ down ∈ f'.tasks := by
  obtain ⟨hf', hm, hsort⟩ := add_edge_cycle_shape f up down key f' m hnodup h
  subst hf'
  refine ⟨hm, mem_addAndCheck_edges _ _, hsort, ?_, ?_⟩
  · rw [addAndCheck_tasks]
    exact mem_addEndpoints_up f up down hne
  · rw [addAndCheck_tasks]
    exact mem_addEndpoints_down f up down

/-- C2 witness for the amended claim: the concrete cycle-creating second call
of the scenario. -/
theorem c2_add_edge_cycle_no_rollback_witness :
    "Flows must be acyclic!" = "Flows must be acyclic!" ∧
    ({ upstream_task := "y", downstream_task := "x", key := none } : Edge) ∈
      ([{ upstream_task := "x", downstream_task := "y", key := none },
        { upstream_task := "y", downstream_task := "x", key := none }] :
          List Edge) ∧
    Flow.sorted_tasks
        { tasks := [{ id := "x", name := "X" }, { id := "y", name := "Y" }],
          edges := [{ upstream_task := "x", downstream_task := "y", key := none },
                    { upstream_task := "y", downstream_task := "x", key := none }] }
        none = .error "Flows must be acyclic!" ∧
    ({ id := "y", name := "Y" } : Task) ∈
      [{ id := "x", name := "X" }, { id := "y", name := "Y" }] ∧
    ({ id := "x", name := "X" } : Task) ∈
      [{ id := "x", name := "X" }, { id := "y", name := "Y" }] :=
  c2_add_edge_cycle_no_rollback
    { tasks := [{ id := "x", name := "X" }, { id := "y", name := "Y" }],
      edges := [{ upstream_task := "x", downstream_task := "y", key := none }] }
    { id := "y", name := "Y" } { id := "x", name := "X" } none
    { tasks := [{ id := "x", name := "X" }, { id := "y", name := "Y" }],
      edges := [{ upstream_task := "x", downstream_task := "y", key := none },
                { upstream_task := "y", downstream_task := "x", key := none }] }
    "Flows must be acyclic!"
    (fun k hk => by cases hk)
    (by decide)
    (by decide)

/-- C6: a second `add_edge` call naming an already-used `(downstream, key)`
pair with a non-null key fails with the duplicate-key error and does not add
the duplicate edge to the edge set. -/
theorem c6_duplicate_named_edge (f : Flow) (up down : Task) (k : String)
    (hdup : ∃ e ∈ f.edges, e.downstream_task = down.id ∧ e.key = some k) :
    ∃ f', f.add_edge up down (some k) = (f', some (dupKeyMsg down.id k)) ∧
      f'.edges = f.edges :=
  ⟨addEndpoints f up down, add_edge_dup f up down k hdup,
    addEndpoints_edges f up down⟩

/-- C6 witness: `add_edge(A, C, key := "x")` followed by
`add_edge(B, C, key := "x")` fails with the duplicate-key error, the edge
set unchanged. -/
theorem c6_duplicate_named_edge_witness :
    ∃ f', Flow.add_edge
        { tasks := [{ id := "a", name := "A" }, { id := "c", name := "C" }],
          edges := [{ upstream_task := "a", downstream_task := "c", key := some "x" }] }
        { id := "b", name := "B" } { id := "c", name := "C" } (some "x") =
      (f', some (dupKeyMsg "c" "x")) ∧
      f'.edges =
        [{ upstream_task := "a", downstream_task := "c", key := some "x" }] :=
  c6_duplicate_named_edge
    { tasks := [{ id := "a", name := "A" }, { id := "c", name := "C" }],
      edges := [{ upstream_task := "a", downstream_task := "c", key := some "x" }] }
    { id := "b", name := "B" } { id := "c", name := "C" } "x"
    (by decide)

/-- C10: when `add_edge` fails with the duplicate named-edge error, the
endpoint tasks have nevertheless been inserted into the task set (they are
present afterwards, even when absent before), while the edge set is left
unchanged: the rejection does not restore the prior task set. -/
theorem c10_duplicate_key_inserts_tasks (f : Flow) (up down : Task) (k : String)
    (hdup : ∃ e ∈ f.edges, e.downstream_task = down.id ∧ e.key = some k)
    (hne : up.id ≠ down.id) :
    ∃ f', f.add_edge up down (some k) = (f', some (dupKeyMsg down.id k)) ∧
      f'.edges = f.edges ∧ up ∈ f'.tasks ∧ down ∈ f'.tasks :=
  ⟨addEndpoints f up down, add_edge_dup f up down k hdup,
    addEndpoints_edges f up down,
    mem_addEndpoints_up f up down hne,
    mem_addEndpoints_down f up down⟩

/-- C10 witness: the upstream task `B`, absent before the failing duplicate
call, is present in the task set afterwards while the edge set is unchanged. -/
theorem c10_duplicate_key_inserts_tasks_witness :
    ∃ f', Flow.add_edge
        { tasks := [{ id := "a", name := "A" }, { id := "c", name := "C" }],
          edges := [{ upstream_task := "a", downstream_task := "c", key := some "x" }] }
        { id := "b", name := "B" } { id := "c", name := "C" } (some "x") =
      (f', some (dupKeyMsg "c" "x")) ∧
      f'.edges =
        [{ upstream_task := "a", downstream_task := "c", key := some "x" }] ∧
      ({ id := "b", name := "B" } : Task) ∈ f'.tasks ∧
      ({ id := "c", name := "C" } : Task) ∈ f'.tasks :=
  c10_duplicate_key_inserts_tasks
    { tasks := [{ id := "a", name := "A" }, { id := "c", name := "C" }],
      edges := [{ upstream_task := "a", downstream_task := "c", key := some "x" }] }
    { id := "b", name := "B" } { id := "c", name := "C" } "x"
    (by decide) (by decide)

/-- C8: a task of the graph is a root task iff its upstream task set is
empty, and a terminal task iff its downstream task set is empty. -/
theorem c8_roots_and_terminals (f : Flow) (hinv : f.Inv) (t : Task)
    (ht : t ∈ f.tasks) :
    (t ∈ f.root_tasks ↔ f.upstream_tasks t = []) ∧
    (t ∈ f.terminal_tasks ↔ f.downstream_tasks t = []) := by
  constructor
  · constructor
    · intro hr
      have hempty : (f.edges_to t).isEmpty = true := by
        have h0 := List.mem_filter.1 hr
        exact h0.2
      have hnil : f.edges_to t = [] := List.isEmpty_iff.1 hempty
      unfold Flow.upstream_tasks
      rw [List.filter_eq_nil]
      intro u hu hp
      simp only [List.any_eq_true, Bool.and_eq_true, beq_iff_eq] at hp
      obtain ⟨e, he, hdn, hup⟩ := hp
      have hmem : e ∈ f.edges_to t := by
        unfold Flow.edges_to
        exact List.mem_filter.2 ⟨he, by simp [hdn]⟩
      rw [hnil] at hmem
      cases hmem
    · intro hup
      unfold Flow.root_tasks
      refine List.mem_filter.2 ⟨ht, ?_⟩
      rw [List.isEmpty_iff, List.eq_nil_iff_forall_not_mem]
      intro e he
      have he1 : e ∈ f.edges := by
        unfold Flow.edges_to at he
        exact (List.mem_filter.1 he).1
      have he2 : e.downstream_task = t.id := by
        unfold Flow.edges_to at he
        have h0 := (List.mem_filter.1 he).2
        simpa using h0
      obtain ⟨u, hu, huid⟩ := (hinv.2 e he1).1
      have humem : u ∈ f.upstream_tasks t := by
        unfold Flow.upstream_tasks
        refine List.mem_filter.2 ⟨hu, ?_⟩
        refine List.any_eq_true.2 ⟨e, he1, ?_⟩
        simp [he2, huid]
      rw [hup] at humem
      cases humem
  · constructor
    · intro hr
      have hempty : (f.edges_from t).isEmpty = true := by
        have h0 := List.mem_filter.1 hr
        exact h0.2
      have hnil : f.edges_from t = [] := List.isEmpty_iff.1 hempty
      unfold Flow.downstream_tasks
      rw [List.filter_eq_nil]
      intro u hu hp
      simp only [List.any_eq_true, Bool.and_eq_true, beq_iff_eq] at hp
      obtain ⟨e, he, hupp, hdnn⟩ := hp
      have hmem : e ∈ f.edges_from t := by
        unfold Flow.edges_from
        exact List.mem_filter.2 ⟨he, by simp [hupp]⟩
      rw [hnil] at hmem
      cases hmem
    · intro hdw
      unfold Flow.terminal_tasks
      refine List.mem_filter.2 ⟨ht, ?_⟩
      rw [List.isEmpty_iff, List.eq_nil_iff_forall_not_mem]
      intro e he
      have he1 : e ∈ f.edges := by
        unfold Flow.edges_from at he
        exact (List.mem_filter.1 he).1
      have he2 : e.upstream_task = t.id := by
        unfold Flow.edges_from at he
        have h0 := (List.mem_filter.1 he).2
        simpa using h0
      obtain ⟨d, hd, hdid⟩ := (hinv.2 e he1).2
      have hdmem : d ∈ f.downstream_tasks t := by
        unfold Flow.downstream_tasks
        refine List.mem_filter.2 ⟨hd, ?_⟩
        refine List.any_eq_true.2 ⟨e, he1, ?_⟩
        simp [he2, hdid]
      rw [hdw] at hdmem
      cases hdmem

/-- C8 witness: on the concrete graph with tasks a, b and edge a → b, task a
is a root (empty upstream set) and b is terminal (empty downstream set). -/
theorem c8_roots_and_terminals_witness :
    (({ id := "a", name := "A" } : Task) ∈
        Flow.root_tasks
          { tasks := [{ id := "a", name := "A" }, { id := "b", name := "B" }],
            edges := [{ upstream_task := "a", downstream_task := "b", key := none }] } ↔
      Flow.upstream_tasks
          { tasks := [{ id := "a", name := "A" }, { id := "b", name := "B" }],
            edges := [{ upstream_task := "a", downstream_task := "b", key := none }] }
          { id := "a", name := "A" } = []) ∧
    (({ id := "a", name := "A" } : Task) ∈
        Flow.terminal_tasks
          { tasks := [{ id := "a", name := "A" }, { id := "b", name := "B" }],
            edges := [{ upstream_task := "a", downstream_task := "b", key := none }] } ↔
      Flow.downstream_tasks
          { tasks := [{ id := "a", name := "A" }, { id := "b", name := "B" }],
            edges := [{ upstream_task := "a", downstream_task := "b", key := none }] }
          { id := "a", name := "A" } = []) :=
  c8_roots_and_terminals
    { tasks := [{ id := "a", name := "A" }, { id := "b", name := "B" }],
      edges := [{ upstream_task := "a", downstream_task := "b", key := none }] }
    (by unfold Flow.Inv; decide) { id := "a", name := "A" } (by decide)

/-! ## Closure lemmas (roots expansion of `sorted_tasks`) -/

lemma mem_unionTasks (a b : List Task) (x : Task) :
    x ∈ unionTasks a b ↔ x ∈ a ∨ x ∈ b := by
  unfold unionTasks
  by_cases hx : x ∈ a <;> simp [hx]

lemma nodup_unionTasks (a b : List Task) (ha : a.Nodup) (hb : b.Nodup) :
    (unionTasks a b).Nodup := by
  unfold unionTasks
  rw [List.nodup_append]
  refine ⟨ha, hb.filter _, ?_⟩
  intro x hx hx'
  have h0 := (List.mem_filter.1 hx').2
  simp [hx] at h0

lemma closurePass_nil (f : Flow) (a : List Task) : closurePass f [] a = a := rfl

lemma closurePass_cons (f : Flow) (t : Task) (rest a : List Task) :
    closurePass f (t :: rest) a =
      closurePass f rest (unionTasks a (f.downstream_tasks t)) := rfl

lemma closurePass_mono (f : Flow) :
    ∀ (s a : List Task) (x : Task), x ∈ a → x ∈ closurePass f s a := by
  intro s
  induction s with
  | nil => intro a x hx; exact hx
  | cons t rest ih =>
    intro a x hx
    rw [closurePass_cons]
    exact ih _ x ((mem_unionTasks _ _ x).2 (Or.inl hx))

lemma mem_closurePass_of_downstream (f : Flow) :
    ∀ (s a : List Task) (t d : Task), t ∈ s → d ∈ f.downstream_tasks t →
      d ∈ closurePass f s a := by
  intro s
  induction s with
  | nil => intro a t d ht _; cases ht
  | cons t' rest ih =>
    intro a t d ht hd
    rcases List.mem_cons.1 ht with rfl | h
    · rw [closurePass_cons]
      exact closurePass_mono f rest _ d ((mem_unionTasks _ _ d).2 (Or.inr hd))
    · rw [closurePass_cons]
      exact ih _ t d h hd

lemma closurePass_pred (f : Flow) (P : Task → Prop)
    (hP : ∀ t, P t → ∀ d ∈ f.downstream_tasks t, P d) :
    ∀ (s a : List Task), (∀ x ∈ s, P x) → (∀ x ∈ a, P x) →
      ∀ x ∈ closurePass f s a, P x := by
  intro s
  induction s with
  | nil => intro a _ ha x hx; exact ha x hx
  | cons t rest ih =>
    intro a hs ha x hx
    rw [closurePass_cons] at hx
    refine ih _ (fun y hy => hs y (List.mem_cons_of_mem t hy)) ?_ x hx
    intro y hy
    rcases (mem_unionTasks _ _ y).1 hy with h | h
    · exact ha y h
    · exact hP t (hs t (List.mem_cons_self t rest)) y h

lemma closurePass_subset (f : Flow) :
    ∀ (s a : List Task), ∀ x ∈ closurePass f s a, x ∈ a ∨ x ∈ f.tasks := by
  intro s
  induction s with
  | nil => intro a x hx; exact Or.inl hx
  | cons t rest ih =>
    intro a x hx
    rw [closurePass_cons] at hx
    rcases ih _ x hx with h | h
    · rcases (mem_unionTasks _ _ x).1 h with h' | h'
      · exact Or.inl h'
      · exact Or.inr ((List.mem_filter.1 h').1)
    · exact Or.inr h

lemma closurePass_nodup (f : Flow) (hft : f.tasks.Nodup) :
    ∀ (s a : List Task), a.Nodup → (closurePass f s a).Nodup := by
  intro s
  induction s with
  | nil => intro a ha; exact ha
  | cons t rest ih =>
    intro a ha
    rw [closurePass_cons]
    exact ih _ (nodup_unionTasks _ _ ha (hft.filter _))

lemma closureLoop_succ (f : Flow) (n : Nat) (tasks seen : List Task) :
    closureLoop f (n + 1) tasks seen =
      (if (tasks.filter (fun t => !seen.contains t)).isEmpty then tasks
       else closureLoop f n
        (closurePass f (tasks.filter (fun t => !seen.contains t)) tasks)
        (seen ++ tasks.filter (fun t => !seen.contains t))) := rfl

lemma closureLoop_spec (f : Flow) (hft : f.tasks.Nodup)
    (P : Task → Prop)
    (hP : ∀ t, P t → ∀ d ∈ f.downstream_tasks t, P d) :
    ∀ (fuel : Nat) (tasks seen : List Task),
      tasks.Nodup → seen.Nodup → (∀ x ∈ seen, x ∈ tasks) →
      (∀ x ∈ tasks, x ∈ f.tasks) →
      (∀ t ∈ seen, ∀ d ∈ f.downstream_tasks t, d ∈ tasks) →
      (∀ x ∈ tasks, P x) →
      f.tasks.length + 1 ≤ fuel + seen.length →
      (closureLoop f fuel tasks seen).Nodup ∧
      (∀ x ∈ tasks, x ∈ closureLoop f fuel tasks seen) ∧
      (∀ x ∈ closureLoop f fuel tasks seen, x ∈ f.tasks) ∧
      (∀ t ∈ closureLoop f fuel tasks seen, ∀ d ∈ f.downstream_tasks t,
        d ∈ closureLoop f fuel tasks seen) ∧
      (∀ x ∈ closureLoop f fuel tasks seen, P x) := by
  intro fuel
  induction fuel with
  | zero =>
    intro tasks seen hndT hndS hsub hsubF hcl hp hfuel
    exfalso
    have hsp : seen.Subperm f.tasks :=
      List.subperm_of_subset hndS (fun x hx => hsubF x (hsub x hx))
    have hlen := hsp.length_le
    omega
  | succ n ih =>
    intro tasks seen hndT hndS hsub hsubF hcl hp hfuel
    rw [closureLoop_succ]
    by_cases hdiff : (tasks.filter (fun t => !seen.contains t)).isEmpty = true
    · rw [if_pos hdiff]
      have hseen_all : ∀ x ∈ tasks, x ∈ seen := by
        intro x hx
        by_contra hxs
        have hxd : x ∈ tasks.filter (fun t => !seen.contains t) :=
          List.mem_filter.2 ⟨hx, by simp [hxs]⟩
        rw [List.isEmpty_iff.1 hdiff] at hxd
        cases hxd
      refine ⟨hndT, fun x hx => hx, hsubF, ?_, hp⟩
      intro t htk d hd
      exact hcl t (hseen_all t htk) d hd
    · rw [if_neg hdiff]
      have hdiff_ne : tasks.filter (fun t => !seen.contains t) ≠ [] := by
        intro h
        rw [h] at hdiff
        exact hdiff rfl
      have hdiff_nd : (tasks.filter (fun t => !seen.contains t)).Nodup :=
        hndT.filter _
      have hdiff_sub : ∀ x ∈ tasks.filter (fun t => !seen.contains t), x ∈ tasks :=
        fun x hx => (List.mem_filter.1 hx).1
    -- apply the induction hypothesis to the expanded state
      have hc1 : (closurePass f (tasks.filter (fun t => !seen.contains t)) tasks).Nodup :=
        closurePass_nodup f hft _ _ hndT
      have hc2 : (seen ++ tasks.filter (fun t => !seen.contains t)).Nodup := by
        rw [List.nodup_append]
        refine ⟨hndS, hdiff_nd, ?_⟩
        intro x hx hx'
        have h0 := (List.mem_filter.1 hx').2
        simp [hx] at h0
      have hc3 : ∀ x ∈ seen ++ tasks.filter (fun t => !seen.contains t),
          x ∈ closurePass f (tasks.filter (fun t => !seen.contains t)) tasks := by
        intro x hx
        rcases List.mem_append.1 hx with h | h
        · exact closurePass_mono f _ _ x (hsub x h)
        · exact closurePass_mono f _ _ x (hdiff_sub x h)
      have hc4 : ∀ x ∈ closurePass f (tasks.filter (fun t => !seen.contains t)) tasks,
          x ∈ f.tasks := by
        intro x hx
        rcases closurePass_subset f _ _ x hx with h | h
        · exact hsubF x h
        · exact h
      have hc5 : ∀ t ∈ seen ++ tasks.filter (fun t => !seen.contains t),
          ∀ d ∈ f.downstream_tasks t,
            d ∈ closurePass f (tasks.filter (fun t => !seen.contains t)) tasks := by
        intro t htc d hd
        rcases List.mem_append.1 htc with h | h
        · exact closurePass_mono f _ _ d (hcl t h d hd)
        · exact mem_closurePass_of_downstream f _ _ t d h hd
      have hc6 : ∀ x ∈ closurePass f (tasks.filter (fun t => !seen.contains t)) tasks,
          P x :=
        closurePass_pred f P hP _ _ (fun x hx => hp x (hdiff_sub x hx)) hp
      have hc7 : f.tasks.length + 1 ≤
          n + (seen ++ tasks.filter (fun t => !seen.contains t)).length := by
        have h1 : 1 ≤ (tasks.filter (fun t => !seen.contains t)).length := by
          cases hfe : tasks.filter (fun t => !seen.contains t) with
          | nil => exact absurd hfe hdiff_ne
          | cons y ys => simp
        rw [List.length_append]
        omega
      obtain ⟨r1, r2, r3, r4, r5⟩ :=
        ih (closurePass f (tasks.filter (fun t => !seen.contains t)) tasks)
          (seen ++ tasks.filter (fun t => !seen.contains t))
          hc1 hc2 hc3 hc4 hc5 hc6 hc7
      exact ⟨r1, fun x hx => r2 x (closurePass_mono f _ _ x hx), r3, r4, r5⟩

lemma closure_complete (f : Flow) (hinv : f.Inv) (C : List Task)
    (hsubF : ∀ x ∈ C, x ∈ f.tasks)
    (hclosed : ∀ t ∈ C, ∀ d ∈ f.downstream_tasks t, d ∈ C) :
    ∀ (a b : String), Relation.ReflTransGen (edgeStep f.edges) a b →
      ∀ x ∈ C, x.id = a → ∀ y ∈ f.tasks, y.id = b → y ∈ C := by
  intro a b h
  induction h with
  | refl =>
    intro x hx hxa y hy hyb
    have hyx : y = x := id_inj f hinv hy (hsubF x hx) (by rw [hyb, hxa])
    exact hyx ▸ hx
  | tail hab hbc ihab =>
    intro x hx hxa y hy hyb
    obtain ⟨e, he, hup, hdn⟩ := hbc
    obtain ⟨z, hz, hzid⟩ := (hinv.2 e he).1
    have hzC : z ∈ C := ihab x hx hxa z hz (by rw [hzid, hup])
    have hyd : y ∈ f.downstream_tasks z := by
      unfold Flow.downstream_tasks
      refine List.mem_filter.2 ⟨hy, ?_⟩
      refine List.any_eq_true.2 ⟨e, he, ?_⟩
      simp [hzid, hdn, hyb]
    exact hclosed z hzC y hyd

lemma sorted_tasks_some_eq (f : Flow) (rs : List Task) (hnd : rs.Nodup) :
    f.sorted_tasks (some rs) =
      sortLoop f.edges
        (closureLoop f (rs.length + f.tasks.length + 1) rs []).length
        (closureLoop f (rs.length + f.tasks.length + 1) rs []) [] := by
  unfold Flow.sorted_tasks
  simp only []
  rw [List.dedup_eq_self.2 hnd]

lemma foldl_dictInsert_eq :
    ∀ (l acc : List Task), ((acc ++ l).map Task.id).Nodup →
      l.foldl dictInsert acc = acc ++ l := by
  intro l
  induction l with
  | nil => intro acc _; simp
  | cons t rest ih =>
    intro acc hnd
    have hnotin : acc.any (fun x => x.id == t.id) = false := by
      rw [List.any_eq_false]
      intro x hx hbeq
      have hx_id : x.id = t.id := by simpa using hbeq
      have hmap := hnd
      rw [List.map_append, List.nodup_append] at hmap
      have hdisj := hmap.2.2
      refine hdisj (List.mem_map.2 ⟨x, hx, rfl⟩) ?_
      rw [hx_id]
      exact List.mem_map.2 ⟨t, List.mem_cons_self t rest, rfl⟩
    have hstep : dictInsert acc t = acc ++ [t] := by
      unfold dictInsert
      rw [if_neg (by rw [hnotin]; exact Bool.false_ne_true)]
    rw [List.foldl_cons, hstep]
    have hrw : (acc ++ [t]) ++ rest = acc ++ t :: rest := by
      rw [List.append_assoc]
      rfl
    have := ih (acc ++ [t]) (by rw [hrw]; exact hnd)
    rw [this, hrw]

/-- C7: for an acyclic graph satisfying the invariant and a root set of its
tasks, `sub_flow` produces a graph whose task set is exactly the downstream
closure of the roots (the tasks of the flow reachable from some root along
edges), whose edge set is exactly the original edges with both endpoints in
that closure, and whose tasks are the task values of the original flow
(shared, not copied). -/
theorem c7_sub_flow (f : Flow) (hinv : f.Inv) (hacyc : Acyclic f.edges)
    (roots : List Task) (hroots : ∀ r ∈ roots, r ∈ f.tasks)
    (hnd : roots.Nodup) :
    ∃ sub, f.sub_flow (some roots) = .ok sub ∧
      (∀ t, t ∈ sub.tasks ↔ t ∈ f.tasks ∧
        ∃ r ∈ roots, Relation.ReflTransGen (edgeStep f.edges) r.id t.id) ∧
      (∀ e, e ∈ sub.edges ↔ e ∈ f.edges ∧
        (∃ t ∈ sub.tasks, t.id = e.upstream_task) ∧
        (∃ t ∈ sub.tasks, t.id = e.downstream_task)) ∧
      (∀ t ∈ sub.tasks, t ∈ f.tasks) := by
  have hft : f.tasks.Nodup := hinv.1.of_map
  have hP : ∀ t, (∃ r ∈ roots, Relation.ReflTransGen (edgeStep f.edges) r.id t.id) →
      ∀ d ∈ f.downstream_tasks t,
        ∃ r ∈ roots, Relation.ReflTransGen (edgeStep f.edges) r.id d.id := by
    rintro t ⟨r, hr, hreach⟩ d hd
    refine ⟨r, hr, hreach.tail ?_⟩
    unfold Flow.downstream_tasks at hd
    have h0 := List.mem_filter.1 hd
    obtain ⟨e, he, hprop⟩ := List.any_eq_true.1 h0.2
    simp only [Bool.and_eq_true, beq_iff_eq] at hprop
    exact ⟨e, he, hprop.1, hprop.2⟩
  obtain ⟨hCnd, hCsup, hCsubF, hCclosed, hCP⟩ :=
    closureLoop_spec f hft
      (fun t => ∃ r ∈ roots, Relation.ReflTransGen (edgeStep f.edges) r.id t.id)
      hP (roots.length + f.tasks.length + 1) roots []
      hnd List.nodup_nil (by intro x hx; cases hx) hroots
      (by intro t ht; cases ht)
      (fun x hx => ⟨x, hx, Relation.ReflTransGen.refl⟩)
      (by simp)
  set C := closureLoop f (roots.length + f.tasks.length + 1) roots [] with hCdef
  have hcompl : ∀ t ∈ f.tasks,
      (∃ r ∈ roots, Relation.ReflTransGen (edgeStep f.edges) r.id t.id) →
        t ∈ C := by
    rintro t ht ⟨r, hr, hreach⟩
    exact closure_complete f hinv C hCsubF hCclosed r.id t.id hreach
      r (hCsup r hr) rfl t ht rfl
  have hchar : ∀ t, t ∈ C ↔ t ∈ f.tasks ∧
      ∃ r ∈ roots, Relation.ReflTransGen (edgeStep f.edges) r.id t.id :=
    fun t => ⟨fun h => ⟨hCsubF t h, hCP t h⟩, fun h => hcompl t h.1 h.2⟩
  obtain ⟨l, hl⟩ := sortLoop_ok_of_acyclic f.edges hacyc C.length C [] hCnd le_rfl
  have hnp : NoPendingUpstream f.edges [] C := by
    intro e he hex
    rcases hex with ⟨x, hx, -⟩
    cases hx
  have hts0 : TopoSorted f.edges [] := ⟨List.Pairwise.nil, by intro x hx; cases hx⟩
  obtain ⟨hperm0, -⟩ := sortLoop_ok_spec f.edges C.length C [] l hCnd hnp hts0 hl
  have hpermCl : List.Perm C l := by simpa using hperm0
  have hCmapnd : (C.map Task.id).Nodup := by
    refine hCnd.map_on ?_
    intro x hx y hy hxy
    exact id_inj f hinv (hCsubF x hx) (hCsubF y hy) hxy
  have hlmapnd : (l.map Task.id).Nodup := (hpermCl.map Task.id).nodup_iff.1 hCmapnd
  have hsorted : f.sorted_tasks (some roots) = .ok l := by
    rw [sorted_tasks_some_eq f roots hnd]
    exact hl
  have hfold : l.foldl dictInsert [] = l := by
    have h0 := foldl_dictInsert_eq l [] (by simpa using hlmapnd)
    simpa using h0
  refine ⟨Flow.mk l
      (f.edges.filter (fun e =>
        l.any (fun t => t.id == e.upstream_task) &&
        l.any (fun t => t.id == e.downstream_task))), ?_, ?_, ?_, ?_⟩
  · unfold Flow.sub_flow
    rw [hsorted]
    simp only [hfold]
  · intro t
    exact (hpermCl.mem_iff).symm.trans (hchar t)
  · intro e
    rw [List.mem_filter]
    constructor
    · rintro ⟨h1, h2⟩
      simp only [Bool.and_eq_true, List.any_eq_true, beq_iff_eq] at h2
      exact ⟨h1, h2.1, h2.2⟩
    · rintro ⟨h1, h2, h3⟩
      refine ⟨h1, ?_⟩
      simp only [Bool.and_eq_true, List.any_eq_true, beq_iff_eq]
      exact ⟨h2, h3⟩
  · intro t ht
    exact hCsubF t (hpermCl.mem_iff.2 ht)

/-- C7 witness: on the concrete graph with tasks a, b, c and edge a → b,
`sub_flow` from root a keeps exactly the closure of a and the surviving
edge. -/
theorem c7_sub_flow_witness :
    ∃ sub,
      Flow.sub_flow
          { tasks := [{ id := "a", name := "A" }, { id := "b", name := "B" },
                      { id := "c", name := "C" }],
            edges := [{ upstream_task := "a", downstream_task := "b", key := none }] }
          (some [{ id := "a", name := "A" }]) = .ok sub ∧
      (∀ t, t ∈ sub.tasks ↔ t ∈
          [{ id := "a", name := "A" }, { id := "b", name := "B" },
           { id := "c", name := "C" }] ∧
        ∃ r ∈ [({ id := "a", name := "A" } : Task)],
          Relation.ReflTransGen
            (edgeStep [{ upstream_task := "a", downstream_task := "b", key := none }])
            r.id t.id) ∧
      (∀ e, e ∈ sub.edges ↔
        e ∈ [({ upstream_task := "a", downstream_task := "b", key := none } : Edge)] ∧
        (∃ t ∈ sub.tasks, t.id = e.upstream_task) ∧
        (∃ t ∈ sub.tasks, t.id = e.downstream_task)) ∧
      (∀ t ∈ sub.tasks, t ∈
        [{ id := "a", name := "A" }, { id := "b", name := "B" },
         { id := "c", name := "C" }]) :=
  c7_sub_flow
    { tasks := [{ id := "a", name := "A" }, { id := "b", name := "B" },
                { id := "c", name := "C" }],
      edges := [{ upstream_task := "a", downstream_task := "b", key := none }] }
    (by unfold Flow.Inv; decide)
    (acyclic_single "a" "b" (by decide))
    [{ id := "a", name := "A" }]
    (by decide) (by decide)

/-! ## Runner lemmas -/

/-- When `check_state` raises `DONTRUN`, `run` returns the prior state
untouched together with the initial result value. -/
lemma run_of_check_error (debug : Bool) (st : TaskRunState)
    (upstream_states : List TaskRunState) (trigger : List TaskRunState → Bool)
    (body : BodyResult) (success_result : Option String) (r : String)
    (h : check_state st upstream_states trigger = .error (.sig (.DONTRUN r))) :
    run debug st upstream_states trigger body success_result =
      .ok ⟨st, if st.is_successful then success_result else none⟩ := by
  simp [run, h, catchExc]

/-- `check_state` on a running prior state raises `DONTRUN` whatever the
upstream states and the trigger result are. -/
lemma check_state_running_dontrun (upstream_states : List TaskRunState)
    (trigger : List TaskRunState → Bool) :
    ∃ r, check_state .running upstream_states trigger =
      .error (.sig (.DONTRUN r)) := by
  unfold check_state
  by_cases h1 : upstream_states.all TaskRunState.is_finished
  · by_cases h2 : trigger upstream_states
    · exact ⟨"TaskRun is already running.", by
        simp [h1, h2, TaskRunState.is_running]⟩
    · exact ⟨"Trigger failed", by simp [h1, h2]⟩
  · exact ⟨"Upstream tasks are not finished.", by simp [h1]⟩

/-- `check_state` on a succeeded prior state raises `DONTRUN` whatever the
upstream states and the trigger result are. -/
lemma check_state_succeeded_dontrun (upstream_states : List TaskRunState)
    (trigger : List TaskRunState → Bool) :
    ∃ r, check_state .succeeded upstream_states trigger =
      .error (.sig (.DONTRUN r)) := by
  unfold check_state
  by_cases h1 : upstream_states.all TaskRunState.is_finished
  · by_cases h2 : trigger upstream_states
    · exact ⟨"TaskRun is already finished.", by
        simp [h1, h2, TaskRunState.is_running, TaskRunState.is_finished]⟩
    · exact ⟨"Trigger failed", by simp [h1, h2]⟩
  · exact ⟨"Upstream tasks are not finished.", by simp [h1]⟩

/-! ## Claim theorems: unit runner -/

/-- C5: for every call to `check_state` with a running prior state, and for
every combination of upstream states and trigger result, `check_state`
raises `DONTRUN`; consequently `run` never invokes the task body (its outcome
is the same whatever the body behaviour) and returns the prior `running`
state unchanged, with no result. -/
theorem c5_running_always_dontrun (debug : Bool)
    (upstream_states : List TaskRunState) (trigger : List TaskRunState → Bool)
    (body : BodyResult) (success_result : Option String) :
    (∃ r, check_state .running upstream_states trigger =
      .error (.sig (.DONTRUN r))) ∧
    run debug .running upstream_states trigger body success_result =
      .ok ⟨.running, none⟩ := by
  obtain ⟨r, hr⟩ := check_state_running_dontrun upstream_states trigger
  exact ⟨⟨r, hr⟩, by
    simpa [TaskRunState.is_successful] using
      run_of_check_error debug .running upstream_states trigger body
        success_result r hr⟩

/-- C9: a run whose prior state is already successful is aborted by `DONTRUN`
with the state untouched, yet returns the caller-supplied `success_result`;
any other prior state whose `check_state` aborts with `DONTRUN` yields the
result `None`. -/
theorem c9_dontrun_result (debug : Bool) (st : TaskRunState)
    (upstream_states : List TaskRunState) (trigger : List TaskRunState → Bool)
    (body : BodyResult) (success_result : Option String) :
    (run debug .succeeded upstream_states trigger body success_result =
      .ok ⟨.succeeded, success_result⟩) ∧
    (st.is_successful = false →
      (∃ r, check_state st upstream_states trigger =
        .error (.sig (.DONTRUN r))) →
      run debug st upstream_states trigger body success_result =
        .ok ⟨st, none⟩) := by
  constructor
  · obtain ⟨r, hr⟩ := check_state_succeeded_dontrun upstream_states trigger
    simpa [TaskRunState.is_successful] using
      run_of_check_error debug .succeeded upstream_states trigger body
        success_result r hr
  · intro hs ⟨r, hr⟩
    simpa [hs] using
      run_of_check_error debug st upstream_states trigger body
        success_result r hr

/-- C9 witness: a concrete successful prior state returns the supplied
`success_result`, and a concrete running prior state (a `DONTRUN` abort)
returns `None`. -/
theorem c9_dontrun_result_witness :
    run false .succeeded [] (fun _ => true) (.value none) (some "v") =
      .ok ⟨.succeeded, some "v"⟩ ∧
    run false .running [] (fun _ => true) (.value none) (some "v") =
      .ok ⟨.running, none⟩ :=
  ⟨(c9_dontrun_result false .running [] (fun _ => true) (.value none)
      (some "v")).1,
    (c9_dontrun_result false .running [] (fun _ => true) (.value none)
      (some "v")).2 rfl ⟨"TaskRun is already running.", by decide⟩⟩

/-- C3 counterexample: a body that raises `SUCCESS` carrying the value `"v"`
(prior state pending, upstreams finished, trigger true) finalizes in
`succeeded` but returns result `None`: the carried value does not become the
task's result, contrary to the claim. -/
theorem c3_counterexample :
    run false .pending [] (fun _ => true)
        (.signal (.SUCCESS (some "v"))) none = .ok ⟨.succeeded, none⟩ ∧
    run false .pending [] (fun _ => true)
        (.signal (.SUCCESS (some "v"))) none ≠ .ok ⟨.succeeded, some "v"⟩ := by
  decide

/-- C3 amended: a body raising `SUCCESS` finalizes the run in `succeeded`,
but the returned result is the pre-initialized result value (`None` for a
pending prior state) — the signal's carried value is discarded
(`catch_signals` only calls `state.succeed()`). -/
theorem c3_success_signal (debug : Bool) (upstream_states : List TaskRunState)
    (trigger : List TaskRunState → Bool) (v : Option String)
    (success_result : Option String)
    (h1 : upstream_states.all TaskRunState.is_finished = true)
    (h2 : trigger upstream_states = true) :
    run debug .pending upstream_states trigger (.signal (.SUCCESS v))
      success_result = .ok ⟨.succeeded, none⟩ := by
  simp [run, check_state, h1, h2, TaskRunState.is_pending,
    TaskRunState.is_running, TaskRunState.is_finished,
    TaskRunState.is_successful, run_task, catchExc, TaskRunState.start,
    TaskRunState.succeed]

/-- C3 witness: concrete instance of the amended claim. -/
theorem c3_success_signal_witness :
    run false .pending [] (fun _ => true) (.signal (.SUCCESS (some "v")))
      (some "w") = .ok ⟨.succeeded, none⟩ :=
  c3_success_signal false [] (fun _ => true) (some "v") (some "w") rfl rfl

/-- C4 counterexample: with debug mode active, a body raising an unclassified
error does *not* propagate to the caller of `run`: `run_task` coerces it to
`FAIL` before `catch_signals`' debug re-raise can see it, and the run
finalizes in `failed`. -/
theorem c4_counterexample :
    run true .pending [] (fun _ => true) (.error "boom") none =
      .ok ⟨.failed, none⟩ := by
  decide

/-- C4 amended: a body raising an unclassified error is coerced by `run_task`
into `FAIL` carrying the non-empty captured diagnostic, and the run finalizes
in `failed` — in debug mode exactly as in normal mode; the debug re-raise of
`catch_signals` never applies to task-body errors. -/
theorem c4_unclassified_error (debug : Bool)
    (upstream_states : List TaskRunState)
    (trigger : List TaskRunState → Bool) (msg : String)
    (success_result : Option String)
    (h1 : upstream_states.all TaskRunState.is_finished = true)
    (h2 : trigger upstream_states = true) :
    run debug .pending upstream_states trigger (.error msg) success_result =
      .ok ⟨.failed, none⟩ ∧
    run_task (.error msg) = .error (.sig (.FAIL (format_exc msg))) ∧
    format_exc msg ≠ "" := by
  refine ⟨?_, rfl, ?_⟩
  · simp [run, check_state, h1, h2, TaskRunState.is_pending,
      TaskRunState.is_running, TaskRunState.is_finished,
      TaskRunState.is_successful, run_task, catchExc, TaskRunState.start,
      TaskRunState.fail]
  · intro hcon
    have hlen := congrArg String.length hcon
    simp [format_exc, String.length_append] at hlen
    exact absurd hlen.1 (by decide)

/-- C4 witness: concrete instance of the amended claim, in debug mode. -/
theorem c4_unclassified_error_witness :
    run true .pending [] (fun _ => true) (.error "boom") none =
      .ok ⟨.failed, none⟩ ∧
    run_task (.error "boom") =
      .error (.sig (.FAIL (format_exc "boom"))) ∧
    format_exc "boom" ≠ "" :=
  c4_unclassified_error true [] (fun _ => true) "boom" none rfl rfl

end Prefect
